import Mathlib

/-!
Verification of the real-time synchronization client (the useWebSocket
hook): payload merge semantics, message routing, coalesced cache
invalidation, and the connection lifecycle state machine, shallowly
embedded from the TypeScript source.
-/

/-- JSON-like values carried in message payloads (the output of
JSON.parse); null is the only nullish value JSON can produce. -/
inductive JVal where
  | null
  | bool (b : Bool)
  | int (n : Int)
  | str (s : String)
  deriving DecidableEq

/-- An entity snapshot or payload object: a field-name to value mapping
in insertion order, as a JS object literal. -/
abbrev Snapshot := List (String × JVal)

/-- Property read o[f] on a JS object: the first binding wins. -/
def jlookup (o : Snapshot) (f : String) : Option JVal :=
  match o with
  | [] => none
  | (k, v) :: rest => if k = f then some v else jlookup rest f

/-- JS object spread of p over old: old's keys first (values overridden
by p where p has the key), then p's keys that are new. -/
def spread (old p : Snapshot) : Snapshot :=
  old.map (fun kv => (kv.1, (jlookup p kv.1).getD kv.2)) ++
    p.filter (fun kv => (jlookup old kv.1).isNone)

/-- JS property assignment o[f] = v: replaces the binding in place if
the key is present, else appends it. -/
def setField (o : Snapshot) (f : String) (v : JVal) : Snapshot :=
  if (jlookup o f).isSome then
    o.map (fun kv => if kv.1 = f then (kv.1, v) else kv)
  else o ++ [(f, v)]

/-- JS test x == null on a JSON-valued property read: true for an
absent property (undefined) and for null. -/
def isNullish : Option JVal → Bool
  | none => true
  | some JVal.null => true
  | some _ => false

/-- JS test old?.f != null for an optional object old: false when old
is undefined, when the property is absent, or when it is null. -/
def optNonNull (old : Option Snapshot) (f : String) : Bool :=
  match old with
  | none => false
  | some o => !(isNullish (jlookup o f))

/-- The sticky signal-quality field of a printer status snapshot. -/
def wifiField : String := "wifi_signal"

/-- The printer_status cache updater from handleMessage: merged is the
spread of the payload over the old snapshot (absent old treated as
empty), then the last known wifi_signal is preserved if the new value
is nullish while the old one was non-null. -/
def mergePrinterStatus (old : Option Snapshot) (data : Snapshot) : Snapshot :=
  let merged := spread (old.getD []) data
  if isNullish (jlookup merged wifiField) && optNonNull old wifiField then
    setField merged wifiField ((jlookup (old.getD []) wifiField).getD JVal.null)
  else merged

/-- The per-field value of the shallow union of payload p over old
(payload wins per field; absent old treated as the empty mapping). -/
def unionValue (old : Option Snapshot) (p : Snapshot) (f : String) : Option JVal :=
  match jlookup p f with
  | some v => some v
  | none => jlookup (old.getD []) f

/-- Spec-side restatement of the merge contract, used as the comparison
point for the refinement claim about mergePrinterStatus: the shallow
union with payload winning per field, except that a nullish unioned
wifi_signal is replaced by the old snapshot's non-null value. -/
def stickyUnionSpec (old : Option Snapshot) (p : Snapshot) (f : String) : Option JVal :=
  if f = wifiField ∧ isNullish (unionValue old p f) ∧ optNonNull old wifiField then
    jlookup (old.getD []) wifiField
  else unionValue old p f

/-- An inbound frame after JSON.parse, shaped by the WebSocketMessage
interface: a type discriminator, an optional printer id and an optional
data payload. -/
structure WSMessage where
  type : String
  printer_id : Option Int
  data : Option Snapshot
  deriving DecidableEq

/-- State of the invalidation coalescer: the pendingInvalidations set
(kept in insertion order, as a JS Set iterates) and the deadline of the
armed invalidation timeout, if any. -/
structure CoState where
  pendingInv : List String
  invDeadline : Option Nat
  deriving DecidableEq

/-- debouncedInvalidate: add the key to the pending set (JS Set.add: a
key already present keeps its first position), clear any armed flush
timeout and arm a fresh one 100 ms from now. -/
def debouncedInvalidate (now : Nat) (key : String) (s : CoState) : CoState :=
  { pendingInv := if key ∈ s.pendingInv then s.pendingInv else s.pendingInv ++ [key],
    invDeadline := some (now + 100) }

/-- The query cache as touched by handleMessage: printer status
snapshots keyed by printer id, plus the coalescer state. -/
structure CacheState where
  printerStatus : List (Int × Snapshot)
  co : CoState
  deriving DecidableEq

/-- Read the cached snapshot at key [printerStatus, id]. -/
def cacheLookup (c : List (Int × Snapshot)) (id : Int) : Option Snapshot :=
  match c with
  | [] => none
  | (k, v) :: rest => if k = id then some v else cacheLookup rest id

/-- setQueryData at key [printerStatus, id]: replace the entry if
present, else add it. -/
def cacheStore (c : List (Int × Snapshot)) (id : Int) (s : Snapshot) : List (Int × Snapshot) :=
  if (cacheLookup c id).isSome then
    c.map (fun kv => if kv.1 = id then (kv.1, s) else kv)
  else c ++ [(id, s)]

/-- handleMessage: dispatch on the type discriminator. printer_status
merges the payload into the printer's snapshot (only when printer_id is
present); the three archive events request debounced invalidations;
pong and every unrecognized type fall through with no effect. -/
def handleMessage (now : Nat) (m : WSMessage) (c : CacheState) : CacheState :=
  if m.type = "printer_status" then
    match m.printer_id with
    | some id =>
        let updated := mergePrinterStatus (cacheLookup c.printerStatus id) (m.data.getD [])
        { c with printerStatus := cacheStore c.printerStatus id updated }
    | none => c
  else if m.type = "print_complete" then
    { c with co := debouncedInvalidate now "archiveStats"
                     (debouncedInvalidate now "archives" c.co) }
  else if m.type = "archive_created" then
    { c with co := debouncedInvalidate now "archiveStats"
                     (debouncedInvalidate now "archives" c.co) }
  else if m.type = "archive_updated" then
    { c with co := debouncedInvalidate now "archives" c.co }
  else c

/-- ws.onmessage: JSON.parse either yields a message (some) or throws
(none); the catch block ignores the frame, so a decode failure leaves
the cache untouched. -/
def onmessage (now : Nat) (decoded : Option WSMessage) (c : CacheState) : CacheState :=
  match decoded with
  | none => c
  | some m => handleMessage now m c

/-- Drive the coalescer over a time-ordered list of (time, key)
invalidation requests, starting from state s: whenever the armed
timeout's deadline has passed at the next request's arrival, the flush
fires first (draining the set into one batch of downstream
invalidations); a trailing armed timeout flushes at its deadline. The
output lists each flush as (flush time, drained keys). -/
def runCoalescer : List (Nat × String) → CoState → List (Nat × List String)
  | [], s =>
    match s.invDeadline with
    | none => []
    | some d => if s.pendingInv = [] then [] else [(d, s.pendingInv)]
  | (t, k) :: rest, s =>
    match s.invDeadline with
    | none => runCoalescer rest (debouncedInvalidate t k s)
    | some d =>
      if d ≤ t then
        (if s.pendingInv = [] then [] else [(d, s.pendingInv)]) ++
          runCoalescer rest (debouncedInvalidate t k ⟨[], none⟩)
      else runCoalescer rest (debouncedInvalidate t k s)

/-- The requests after the first each arrive no earlier than the
previous one and strictly less than 100 ms after it (all inside one
coalescing window). -/
def withinFrom : Nat → List (Nat × String) → Bool
  | _, [] => true
  | t, (t1, _) :: rest => (t ≤ t1 && t1 < t + 100) && withinFrom t1 rest

/-- All requests of the batch arrive inside one coalescing window. -/
def withinWindowB : List (Nat × String) → Bool
  | [] => true
  | (t, _) :: rest => withinFrom t rest

/-- The arrival time of the last request, defaulting to t0 for an
empty batch. -/
def lastTimeFrom (t0 : Nat) : List (Nat × String) → Nat
  | [] => t0
  | (t, _) :: rest => lastTimeFrom t rest

/-- The arrival time of the last request (0 for an empty batch). -/
def lastReqTime (reqs : List (Nat × String)) : Nat := lastTimeFrom 0 reqs

/-- First-occurrence deduplication, extending an accumulator the way
successive JS Set.add calls do. -/
def insFold (p : List String) (ks : List String) : List String :=
  ks.foldl (fun acc k => if k ∈ acc then acc else acc ++ [k]) p

/-- The distinct keys of a batch, in first-arrival order: the contents
of the pending set once every request of the batch has been added. -/
def dedupKeys (ks : List String) : List String := insFold [] ks

/-- WebSocket readyState values. -/
inductive RS where
  | connecting
  | isOpen
  | closing
  | isClosed
  deriving DecidableEq

/-- One constructed WebSocket, as the hook observes it: its readyState,
whether its open and close events have been dispatched, and the
pingInterval closure variable (the keepalive period while armed). -/
structure HandleSt where
  rs : RS
  openedEvt : Bool
  closedEvt : Bool
  ping : Option Nat
  deriving DecidableEq

/-- The hook instance state: every WebSocket constructed so far (index
= creation order), the wsRef and reconnectTimeoutRef refs, the pending
reconnect timeouts as (timer id, fire time), the timer id counter, the
isConnected flag, the frames handed to send (handle, frame object),
whether the effect cleanup ran, and the clock. -/
structure Hook where
  handles : List HandleSt
  wsRef : Option Nat
  reconnectRef : Option Nat
  pendingRT : List (Nat × Nat)
  nextTimer : Nat
  isConnected : Bool
  sent : List (Nat × Snapshot)
  cleanedUp : Bool
  now : Nat
  deriving DecidableEq

/-- Replace the handle at index i by f applied to it. -/
def modifyAt (l : List HandleSt) (i : Nat) (f : HandleSt → HandleSt) : List HandleSt :=
  match l, i with
  | [], _ => []
  | x :: xs, 0 => f x :: xs
  | x :: xs, Nat.succ n => x :: modifyAt xs n f

/-- The guard wsRef.current?.readyState === WebSocket.OPEN. -/
def refIsOpen (s : Hook) : Bool :=
  match s.wsRef with
  | none => false
  | some h =>
    match s.handles[h]? with
    | some hs => hs.rs == RS.isOpen
    | none => false

/-- connect(): returns immediately when the referenced handle's
readyState is OPEN; otherwise constructs a new WebSocket (readyState
CONNECTING) and stores it in wsRef. -/
def connectOp (s : Hook) : Hook :=
  if refIsOpen s then s
  else
    { s with handles := s.handles ++ [⟨RS.connecting, false, false, none⟩],
             wsRef := some s.handles.length }

/-- ws.close(): moves a CONNECTING or OPEN socket to CLOSING (the close
event is dispatched later by the transport); no-op otherwise. -/
def closeHandle (s : Hook) (h : Nat) : Hook :=
  { s with handles := modifyAt s.handles h (fun hs =>
      if hs.rs = RS.connecting ∨ hs.rs = RS.isOpen then { hs with rs := RS.closing } else hs) }

/-- The open event on handle h: the transport moves it to OPEN, then
ws.onopen sets isConnected true and arms the 30000 ms ping interval. -/
def stepOpen (s : Hook) (h : Nat) : Hook :=
  { s with handles := modifyAt s.handles h (fun hs =>
      { hs with rs := RS.isOpen, openedEvt := true, ping := some 30000 }),
           isConnected := true }

/-- The close event on handle h: the transport moves it to CLOSED, then
ws.onclose clears the ping interval, sets isConnected false, nulls
wsRef unconditionally, and schedules a reconnect timeout that will call
connect() 3000 ms from now, storing its id in reconnectTimeoutRef
(overwriting, without clearing, whatever id was there). -/
def stepClose (s : Hook) (h : Nat) : Hook :=
  { s with handles := modifyAt s.handles h (fun hs =>
      { hs with rs := RS.isClosed, closedEvt := true, ping := none }),
           isConnected := false,
           wsRef := none,
           pendingRT := s.pendingRT ++ [(s.nextTimer, s.now + 3000)],
           reconnectRef := some s.nextTimer,
           nextTimer := s.nextTimer + 1 }

/-- The error event on handle h: ws.onerror only calls ws.close(). -/
def stepError (s : Hook) (h : Nat) : Hook := closeHandle s h

/-- A reconnect timeout fires: the timer is spent and its callback runs
connect(). -/
def stepFireReconnect (s : Hook) (tid : Nat) : Hook :=
  connectOp { s with pendingRT := s.pendingRT.filter (fun p => !(p.1 == tid)) }

/-- The outbound keepalive frame, JSON.stringify of which is the wire
ping message. -/
def pingFrame : Snapshot := [("type", JVal.str "ping")]

/-- A ping interval tick on handle h: the callback sends the ping frame
only when the socket's readyState is OPEN. -/
def stepPing (s : Hook) (h : Nat) : Hook :=
  match s.handles[h]? with
  | some hs => if hs.rs = RS.isOpen then { s with sent := s.sent ++ [(h, pingFrame)] } else s
  | none => s

/-- sendMessage(message): transmits only when the referenced handle's
readyState is OPEN; otherwise does nothing at all. -/
def sendMessage (s : Hook) (m : Snapshot) : Hook :=
  match s.wsRef with
  | some h =>
    match s.handles[h]? with
    | some hs => if hs.rs = RS.isOpen then { s with sent := s.sent ++ [(h, m)] } else s
    | none => s
  | none => s

/-- The effect cleanup: clear the reconnect timeout whose id is in
reconnectTimeoutRef (the coalescing timeout clearing acts on the cache
model), close the referenced handle if any, and mark the scope
detached. -/
def stepCleanup (s : Hook) : Hook :=
  let s1 :=
    match s.reconnectRef with
    | some tid => { s with pendingRT := s.pendingRT.filter (fun p => !(p.1 == tid)) }
    | none => s
  let s2 :=
    match s1.wsRef with
    | some h => closeHandle s1 h
    | none => s1
  { s2 with cleanedUp := true }

/-- Events driving one hook instance: the mount effect or a remount of
the same scope invoking connect(), transport lifecycle events on a
given handle, timer fires, a consumer send, the effect cleanup, and
clock advance. -/
inductive Ev where
  | connectCall
  | transportOpen (h : Nat)
  | transportClose (h : Nat)
  | transportError (h : Nat)
  | fireReconnect (tid : Nat)
  | firePing (h : Nat)
  | sendCall (m : Snapshot)
  | cleanup
  | tick (dt : Nat)
  deriving DecidableEq

/-- One step of the hook's event loop. -/
def step (s : Hook) : Ev → Hook
  | Ev.connectCall => connectOp s
  | Ev.transportOpen h => stepOpen s h
  | Ev.transportClose h => stepClose s h
  | Ev.transportError h => stepError s h
  | Ev.fireReconnect tid => stepFireReconnect s tid
  | Ev.firePing h => stepPing s h
  | Ev.sendCall m => sendMessage s m
  | Ev.cleanup => stepCleanup s
  | Ev.tick dt => { s with now := s.now + dt }

/-- Which events the environment may deliver in a state: open only on a
still-connecting socket, close and error at most until the close event
has been dispatched, a reconnect fire only for a pending timer whose
deadline has passed, a ping tick only while the interval is armed, and
cleanup once. -/
def validEv (s : Hook) : Ev → Bool
  | Ev.connectCall => true
  | Ev.transportOpen h =>
    match s.handles[h]? with
    | some hs => hs.rs == RS.connecting
    | none => false
  | Ev.transportClose h =>
    match s.handles[h]? with
    | some hs => !hs.closedEvt
    | none => false
  | Ev.transportError h =>
    match s.handles[h]? with
    | some hs => !hs.closedEvt
    | none => false
  | Ev.fireReconnect tid => s.pendingRT.any (fun p => p.1 == tid && p.2 ≤ s.now)
  | Ev.firePing h =>
    match s.handles[h]? with
    | some hs => hs.ping.isSome
    | none => false
  | Ev.sendCall _ => true
  | Ev.cleanup => !s.cleanedUp
  | Ev.tick _ => true

/-- The freshly mounted hook: no handle, no timers, disconnected. -/
def hookInit : Hook :=
  { handles := [], wsRef := none, reconnectRef := none, pendingRT := [],
    nextTimer := 0, isConnected := false, sent := [], cleanedUp := false, now := 0 }

/-- Run a trace of events from the mounted hook. -/
def run (es : List Ev) : Hook := es.foldl step hookInit

/-- Every event of the trace is deliverable in the state it meets. -/
def validFrom (s : Hook) : List Ev → Bool
  | [] => true
  | e :: es => validEv s e && validFrom (step s e) es

/-- A trace deliverable from the mounted hook. -/
def validTrace (es : List Ev) : Bool := validFrom hookInit es

/-- Handles whose readyState is CONNECTING or OPEN (live sockets). -/
def liveCount (s : Hook) : Nat :=
  (s.handles.filter (fun hs => hs.rs == RS.connecting || hs.rs == RS.isOpen)).length

/-- The isConnected value dictated by the open/close events alone: the
flag after the most recent open or close event of the trace (false
before any). -/
def lastFlip (es : List Ev) : Bool :=
  es.foldl
    (fun acc e =>
      match e with
      | Ev.transportOpen _ => true
      | Ev.transportClose _ => false
      | _ => acc)
    false

/-- The right-hand side of the claimed connected-flag invariant: the
most recent lifecycle event (open, close or error) was an open. -/
def claimC5rhs (es : List Ev) : Bool :=
  es.foldl
    (fun acc e =>
      match e with
      | Ev.transportOpen _ => true
      | Ev.transportClose _ => false
      | Ev.transportError _ => false
      | _ => acc)
    false

/-- A handle is Open in the spec's four-state machine: its open event
has run and its close event has not (the error handler only requests
closure; the Open to Closed transition itself is the close event). -/
def specOpen (hs : HandleSt) : Bool := hs.openedEvt && !hs.closedEvt

/-- Per-handle invariant of every reachable hook state: the keepalive
interval is armed, with its 30000 ms period, exactly while the handle
is Open in the spec state machine; the close event and the CLOSED
readyState coincide; a still-connecting handle has not seen its open
event. -/
def handleInv (hs : HandleSt) : Prop :=
  hs.ping = (if specOpen hs then some 30000 else none)
  ∧ (hs.closedEvt = true ↔ hs.rs = RS.isClosed)
  ∧ (hs.rs = RS.connecting → hs.openedEvt = false)

/-- Every handle of the hook state satisfies the per-handle invariant. -/
def hookInv (s : Hook) : Prop :=
  ∀ (i : Nat) (hs : HandleSt), s.handles[i]? = some hs → handleInv hs

theorem jlookup_append (a b : Snapshot) (f : String) :
    jlookup (a ++ b) f =
      match jlookup a f with
      | some v => some v
      | none => jlookup b f := by
  induction a with
  | nil => simp [jlookup]
  | cons kv rest ih =>
    obtain ⟨k, v⟩ := kv
    by_cases h : k = f
    · simp [jlookup, h]
    · simp [jlookup, h, ih]

theorem jlookup_map_upd (p o : Snapshot) (f : String) :
    jlookup (o.map (fun kv => (kv.1, (jlookup p kv.1).getD kv.2))) f =
      (jlookup o f).map (fun v => (jlookup p f).getD v) := by
  induction o with
  | nil => simp [jlookup]
  | cons kv rest ih =>
    obtain ⟨k, v⟩ := kv
    by_cases h : k = f
    · subst h
      simp [jlookup]
    · simp [jlookup, h, ih]

theorem jlookup_filter_new (old p : Snapshot) (f : String) :
    jlookup (p.filter (fun kv => (jlookup old kv.1).isNone)) f =
      if (jlookup old f).isNone then jlookup p f else none := by
  induction p with
  | nil => simp [jlookup]
  | cons kv rest ih =>
    obtain ⟨k, v⟩ := kv
    by_cases hk : (jlookup old k).isNone
    · by_cases h : k = f
      · subst h
        simp [List.filter, hk, jlookup]
      · simp [List.filter, hk, jlookup, h, ih]
    · by_cases h : k = f
      · subst h
        simp [List.filter, hk, jlookup, ih]
      · simp [List.filter, hk, jlookup, h, ih]

theorem jlookup_spread (old p : Snapshot) (f : String) :
    jlookup (spread old p) f =
      match jlookup p f with
      | some v => some v
      | none => jlookup old f := by
  unfold spread
  rw [jlookup_append, jlookup_map_upd, jlookup_filter_new]
  cases ho : jlookup old f with
  | none => cases hp : jlookup p f <;> simp [ho]
  | some v => cases hp : jlookup p f <;> simp [ho, hp]

theorem jlookup_map_set (o : Snapshot) (f : String) (v : JVal) (g : String) :
    jlookup (o.map (fun kv => if kv.1 = f then (kv.1, v) else kv)) g =
      if g = f then (jlookup o f).map (fun _ => v) else jlookup o g := by
  induction o with
  | nil => simp [jlookup]
  | cons kv rest ih =>
    obtain ⟨k, w⟩ := kv
    simp only [List.map_cons]
    by_cases hkf : k = f
    · rw [if_pos hkf]
      subst hkf
      by_cases hgk : g = k
      · subst hgk
        simp [jlookup]
      · have hkg : ¬ k = g := fun h => hgk h.symm
        simp [jlookup, hgk, hkg, ih]
    · rw [if_neg hkf]
      by_cases hkg : k = g
      · subst hkg
        have hgf : ¬ k = f := hkf
        simp [jlookup, hgf]
      · simp [jlookup, hkf, hkg, ih]

theorem jlookup_setField (o : Snapshot) (f : String) (v : JVal) (g : String) :
    (jlookup o f).isSome →
      jlookup (setField o f v) g = if g = f then some v else jlookup o g := by
  intro hsome
  unfold setField
  rw [if_pos hsome, jlookup_map_set]
  by_cases hgf : g = f
  · subst hgf
    cases h : jlookup o g with
    | none => rw [h] at hsome; simp at hsome
    | some w => simp [h]
  · simp [hgf]

theorem optNonNull_some_elim (o : Snapshot) (f : String) :
    optNonNull (some o) f = true → ∃ w, jlookup o f = some w ∧ ¬ w = JVal.null := by
  intro h
  have h2 : (!(isNullish (jlookup o f))) = true := h
  cases hjw : jlookup o f with
  | none => rw [hjw] at h2; simp [isNullish] at h2
  | some w =>
    rw [hjw] at h2
    refine ⟨w, rfl, ?_⟩
    intro hwnull
    subst hwnull
    simp [isNullish] at h2

theorem mergePS_lookup (old : Option Snapshot) (p : Snapshot) (f : String) :
    jlookup (mergePrinterStatus old p) f = stickyUnionSpec old p f := by
  cases old with
  | none =>
    unfold mergePrinterStatus stickyUnionSpec
    have hnn : optNonNull none wifiField = false := rfl
    simp [hnn, jlookup_spread, unionValue]
  | some o =>
    have hm : ∀ g, jlookup (spread o p) g = unionValue (some o) p g := by
      intro g
      rw [jlookup_spread]
      simp [unionValue]
    unfold mergePrinterStatus stickyUnionSpec
    simp only [Option.getD_some]
    by_cases hcond : (isNullish (jlookup (spread o p) wifiField) && optNonNull (some o) wifiField) = true
    · have hnull : isNullish (jlookup (spread o p) wifiField) = true :=
        ((Bool.and_eq_true _ _).mp hcond).1
      have hnn : optNonNull (some o) wifiField = true :=
        ((Bool.and_eq_true _ _).mp hcond).2
      obtain ⟨w, hw, hwn⟩ := optNonNull_some_elim o wifiField hnn
      have hsome : (jlookup (spread o p) wifiField).isSome := by
        rw [hm wifiField]
        unfold unionValue
        simp only [Option.getD_some]
        cases hp : jlookup p wifiField with
        | some v => simp
        | none => simp [hw]
      rw [if_pos hcond, jlookup_setField _ _ _ _ hsome, hw]
      by_cases hf : f = wifiField
      · subst hf
        rw [if_pos rfl]
        rw [if_pos (⟨rfl, by rw [← hm wifiField]; exact hnull, hnn⟩ :
          wifiField = wifiField ∧ isNullish (unionValue (some o) p wifiField) = true ∧
            optNonNull (some o) wifiField = true)]
        rfl
      · rw [if_neg hf, hm f, if_neg (fun hx => hf hx.1)]
    · rw [if_neg hcond, hm f]
      by_cases hf : f = wifiField
      · subst hf
        rw [if_neg (fun hx => hcond (by
          rw [Bool.and_eq_true]
          refine ⟨?_, hx.2.2⟩
          rw [hm wifiField]
          exact hx.2.1))]
      · rw [if_neg (fun hx => hf hx.1)]

theorem insFold_cons (p : List String) (k : String) (ks : List String) :
    insFold p (k :: ks) = insFold (if k ∈ p then p else p ++ [k]) ks := rfl

theorem insFold_ne_nil (ks : List String) : ∀ p : List String, p ≠ [] → insFold p ks ≠ [] := by
  induction ks with
  | nil => intro p hp; exact hp
  | cons k ks ih =>
    intro p hp
    rw [insFold_cons]
    apply ih
    by_cases hk : k ∈ p
    · simpa [hk] using hp
    · simp [hk]

theorem insFold_nodup (ks : List String) : ∀ p : List String, p.Nodup → (insFold p ks).Nodup := by
  induction ks with
  | nil => intro p hp; exact hp
  | cons k ks ih =>
    intro p hp
    rw [insFold_cons]
    apply ih
    by_cases hk : k ∈ p
    · simpa [hk] using hp
    · simp [hk, List.nodup_append, hp]

theorem insFold_mem (ks : List String) :
    ∀ (p : List String) (a : String), a ∈ insFold p ks ↔ a ∈ p ∨ a ∈ ks := by
  induction ks with
  | nil => intro p a; simp [insFold]
  | cons k ks ih =>
    intro p a
    rw [insFold_cons, ih]
    by_cases hk : k ∈ p
    · rw [if_pos hk]
      constructor
      · rintro (h | h)
        · exact Or.inl h
        · exact Or.inr (List.mem_cons_of_mem k h)
      · rintro (h | h)
        · exact Or.inl h
        · rcases List.mem_cons.mp h with h1 | h1
          · exact Or.inl (h1 ▸ hk)
          · exact Or.inr h1
    · rw [if_neg hk]
      simp [or_assoc]

theorem withinFrom_le_last (reqs : List (Nat × String)) :
    ∀ tprev : Nat, withinFrom tprev reqs = true →
      tprev ≤ lastTimeFrom tprev reqs ∧ ∀ r ∈ reqs, r.1 ≤ lastTimeFrom tprev reqs := by
  induction reqs with
  | nil => intro tprev _; simp [lastTimeFrom]
  | cons r rest ih =>
    obtain ⟨t1, k1⟩ := r
    intro tprev hw
    simp only [withinFrom, Bool.and_eq_true, decide_eq_true_eq] at hw
    obtain ⟨⟨h01, _⟩, hrest⟩ := hw
    obtain ⟨hle, hall⟩ := ih t1 hrest
    constructor
    · show tprev ≤ lastTimeFrom t1 rest
      exact le_trans h01 hle
    · intro s hs
      show s.1 ≤ lastTimeFrom t1 rest
      rcases List.mem_cons.mp hs with h1 | h1
      · rw [h1]
        exact hle
      · exact hall s h1

theorem runCoalescer_within (reqs : List (Nat × String)) :
    ∀ (tprev : Nat) (p : List String), p ≠ [] → withinFrom tprev reqs = true →
      runCoalescer reqs ⟨p, some (tprev + 100)⟩ =
        [(lastTimeFrom tprev reqs + 100, insFold p (reqs.map Prod.snd))] := by
  induction reqs with
  | nil =>
    intro tprev p hp _
    simp [runCoalescer, insFold, lastTimeFrom, hp]
  | cons r rest ih =>
    obtain ⟨t1, k1⟩ := r
    intro tprev p hp hw
    simp only [withinFrom, Bool.and_eq_true, decide_eq_true_eq] at hw
    obtain ⟨⟨hle, hlt⟩, hrest⟩ := hw
    have hnf : ¬ (tprev + 100 ≤ t1) := by omega
    simp only [runCoalescer]
    rw [if_neg hnf]
    have hdb : debouncedInvalidate t1 k1 ⟨p, some (tprev + 100)⟩ =
        ⟨if k1 ∈ p then p else p ++ [k1], some (t1 + 100)⟩ := rfl
    rw [hdb]
    have hne : (if k1 ∈ p then p else p ++ [k1]) ≠ [] := by
      by_cases hk : k1 ∈ p
      · simpa [hk] using hp
      · simp [hk]
    rw [ih t1 _ hne hrest]
    rfl

theorem modifyAt_getElem (l : List HandleSt) (i : Nat) (f : HandleSt → HandleSt) (j : Nat) :
    (modifyAt l i f)[j]? = if j = i then (l[j]?).map f else l[j]? := by
  induction l generalizing i j with
  | nil => simp [modifyAt]
  | cons x xs ih =>
    cases i with
    | zero =>
      cases j with
      | zero => simp [modifyAt]
      | succ j => simp [modifyAt]
    | succ i =>
      cases j with
      | zero => simp [modifyAt]
      | succ j => simpa [modifyAt, Nat.succ_eq_add_one] using ih i j

theorem getElem_append_cases (l : List HandleSt) (x : HandleSt) (i : Nat) (hs : HandleSt) :
    (l ++ [x])[i]? = some hs → l[i]? = some hs ∨ hs = x := by
  induction l generalizing i with
  | nil =>
    cases i with
    | zero => intro h; simp at h; exact Or.inr h.symm
    | succ i => intro h; simp at h
  | cons y ys ih =>
    cases i with
    | zero => intro h; simp at h; simp [h]
    | succ i =>
      intro h
      simp only [List.cons_append, List.getElem?_cons_succ] at h ⊢
      exact ih i h

theorem connectOp_hookInv (s : Hook) (hI : hookInv s) : hookInv (connectOp s) := by
  unfold connectOp
  by_cases h : refIsOpen s = true
  · rw [if_pos h]; exact hI
  · rw [if_neg h]
    intro i hs hget
    simp only at hget
    rcases getElem_append_cases _ _ _ _ hget with h1 | h1
    · exact hI i hs h1
    · subst h1
      exact ⟨rfl, by decide, fun _ => rfl⟩

theorem stepOpen_hookInv (s : Hook) (h : Nat)
    (hv : validEv s (Ev.transportOpen h) = true) (hI : hookInv s) :
    hookInv (stepOpen s h) := by
  intro i hs hget
  have hget2 : (modifyAt s.handles h (fun hs =>
      { hs with rs := RS.isOpen, openedEvt := true, ping := some 30000 }))[i]? = some hs := hget
  rw [modifyAt_getElem] at hget2
  by_cases hih : i = h
  · rw [if_pos hih] at hget2
    subst hih
    rw [Option.map_eq_some'] at hget2
    obtain ⟨hs0v, hs0, hfe⟩ := hget2
    subst hfe
    have hconn : hs0v.rs = RS.connecting := by
      have hv2 : (match s.handles[i]? with
        | some hs1 => hs1.rs == RS.connecting
        | none => false) = true := hv
      rw [hs0] at hv2
      exact eq_of_beq hv2
    obtain ⟨hping, hclosed, hopen⟩ := hI i hs0v hs0
    have hce : hs0v.closedEvt = false := by
      cases hcc : hs0v.closedEvt
      · rfl
      · have h2 := hclosed.mp hcc
        rw [hconn] at h2
        exact absurd h2 (by decide)
    simp [handleInv, specOpen, hce]
  · rw [if_neg hih] at hget2
    exact hI i hs hget2

theorem stepClose_hookInv (s : Hook) (h : Nat) (hI : hookInv s) :
    hookInv (stepClose s h) := by
  intro i hs hget
  have hget2 : (modifyAt s.handles h (fun hs =>
      { hs with rs := RS.isClosed, closedEvt := true, ping := none }))[i]? = some hs := hget
  rw [modifyAt_getElem] at hget2
  by_cases hih : i = h
  · rw [if_pos hih] at hget2
    subst hih
    rw [Option.map_eq_some'] at hget2
    obtain ⟨hs0v, hs0, hfe⟩ := hget2
    subst hfe
    simp [handleInv, specOpen]
  · rw [if_neg hih] at hget2
    exact hI i hs hget2

theorem closeHandle_hookInv (s : Hook) (h : Nat) (hI : hookInv s) :
    hookInv (closeHandle s h) := by
  intro i hs hget
  have hget2 : (modifyAt s.handles h (fun hs =>
      if hs.rs = RS.connecting ∨ hs.rs = RS.isOpen then
        { hs with rs := RS.closing } else hs))[i]? = some hs := hget
  rw [modifyAt_getElem] at hget2
  by_cases hih : i = h
  · rw [if_pos hih] at hget2
    subst hih
    rw [Option.map_eq_some'] at hget2
    obtain ⟨hs0v, hs0, hfe⟩ := hget2
    subst hfe
    obtain ⟨hping, hclosed, hopen⟩ := hI i hs0v hs0
    by_cases hc : hs0v.rs = RS.connecting ∨ hs0v.rs = RS.isOpen
    · rw [if_pos hc]
      have hce : hs0v.closedEvt = false := by
        cases hcc : hs0v.closedEvt
        · rfl
        · have h2 := hclosed.mp hcc
          rcases hc with h1 | h1 <;> rw [h1] at h2 <;> exact absurd h2 (by decide)
      refine ⟨?_, ?_, ?_⟩
      · simpa [handleInv, specOpen] using hping
      · simp [hce]
      · intro hx
        simp at hx
    · rw [if_neg hc]
      exact ⟨hping, hclosed, hopen⟩
  · rw [if_neg hih] at hget2
    exact hI i hs hget2

theorem hookInv_of_handles_eq (s t : Hook) (h : t.handles = s.handles) (hI : hookInv s) :
    hookInv t := by
  intro i hs hget
  apply hI i hs
  rw [← h]
  exact hget

theorem stepCleanup_hookInv (s : Hook) (hI : hookInv s) : hookInv (stepCleanup s) := by
  have hh : (stepCleanup s).handles =
      (match s.wsRef with
       | some h => (closeHandle s h).handles
       | none => s.handles) := by
    unfold stepCleanup closeHandle
    cases hr : s.reconnectRef <;> cases hw : s.wsRef <;> simp [hr, hw]
  cases hw : s.wsRef with
  | none =>
    apply hookInv_of_handles_eq s
    · rw [hh, hw]
    · exact hI
  | some h =>
    apply hookInv_of_handles_eq (closeHandle s h)
    · rw [hh, hw]
    · exact closeHandle_hookInv s h hI

theorem stepPing_handles (s : Hook) (h : Nat) : (stepPing s h).handles = s.handles := by
  unfold stepPing
  (repeat' split) <;> rfl

theorem sendMessage_handles (s : Hook) (m : Snapshot) : (sendMessage s m).handles = s.handles := by
  unfold sendMessage
  (repeat' split) <;> rfl

theorem step_hookInv (s : Hook) (e : Ev) (hv : validEv s e = true) (hI : hookInv s) :
    hookInv (step s e) := by
  cases e with
  | connectCall => exact connectOp_hookInv s hI
  | transportOpen h => exact stepOpen_hookInv s h hv hI
  | transportClose h => exact stepClose_hookInv s h hI
  | transportError h => exact closeHandle_hookInv s h hI
  | fireReconnect tid =>
    apply connectOp_hookInv
    intro i hs hget
    exact hI i hs hget
  | firePing h => exact hookInv_of_handles_eq s _ (stepPing_handles s h) hI
  | sendCall m => exact hookInv_of_handles_eq s _ (sendMessage_handles s m) hI
  | cleanup => exact stepCleanup_hookInv s hI
  | tick dt =>
    intro i hs hget
    exact hI i hs hget

theorem validFrom_hookInv (es : List Ev) :
    ∀ s : Hook, validFrom s es = true → hookInv s → hookInv (es.foldl step s) := by
  induction es with
  | nil => intro s _ hI; exact hI
  | cons e es ih =>
    intro s hv hI
    simp only [validFrom, Bool.and_eq_true] at hv
    exact ih (step s e) hv.2 (step_hookInv s e hv.1 hI)

theorem run_hookInv (es : List Ev) (hv : validTrace es = true) : hookInv (run es) := by
  have hbase : hookInv hookInit := by
    intro i hs hget
    simp [hookInit] at hget
  exact validFrom_hookInv es hookInit hv hbase

theorem connectOp_isConnected (s : Hook) : (connectOp s).isConnected = s.isConnected := by
  unfold connectOp
  split <;> rfl

theorem step_isConnected (s : Hook) (e : Ev) :
    (step s e).isConnected =
      (match e with
       | Ev.transportOpen _ => true
       | Ev.transportClose _ => false
       | _ => s.isConnected) := by
  cases e with
  | connectCall => exact connectOp_isConnected s
  | transportOpen h => rfl
  | transportClose h => rfl
  | transportError h => rfl
  | fireReconnect tid => exact connectOp_isConnected _
  | firePing h =>
    show (stepPing s h).isConnected = s.isConnected
    unfold stepPing
    (repeat' split) <;> rfl
  | sendCall m =>
    show (sendMessage s m).isConnected = s.isConnected
    unfold sendMessage
    (repeat' split) <;> rfl
  | cleanup =>
    show (stepCleanup s).isConnected = s.isConnected
    unfold stepCleanup closeHandle
    dsimp only
    (repeat' split) <;> rfl
  | tick dt => rfl

theorem foldl_isConnected (es : List Ev) :
    ∀ s : Hook, (es.foldl step s).isConnected =
      es.foldl
        (fun acc e =>
          match e with
          | Ev.transportOpen _ => true
          | Ev.transportClose _ => false
          | _ => acc)
        s.isConnected := by
  induction es with
  | nil => intro s; rfl
  | cons e es ih =>
    intro s
    simp only [List.foldl_cons]
    rw [ih (step s e), step_isConnected]

/-- C1, counterexample: in the reachable state where the sole handle is
still Connecting, connect() is not a no-op: it constructs a second
WebSocket, after which two open-or-connecting handles coexist. -/
theorem c1_connect_during_connecting_cex :
    validTrace [Ev.connectCall] = true
    ∧ (run [Ev.connectCall]).handles.map HandleSt.rs = [RS.connecting]
    ∧ (connectOp (run [Ev.connectCall])).handles.length = 2
    ∧ liveCount (connectOp (run [Ev.connectCall])) = 2 := by decide

/-- C1, amended: connect() is a no-op exactly when the referenced
handle's readyState is OPEN; in every other state, a Connecting handle
included, it constructs a new WebSocket. -/
theorem c1_connect_noop_iff_open (s : Hook) : connectOp s = s ↔ refIsOpen s = true := by
  constructor
  · intro h
    by_cases hro : refIsOpen s = true
    · exact hro
    · exfalso
      have hlen := congrArg (fun st => st.handles.length) h
      unfold connectOp at hlen
      rw [if_neg hro] at hlen
      simp at hlen
  · intro h
    unfold connectOp
    rw [if_pos h]

/-- C2: evaluation of the teardown bug. The cleanup runs with a live
open handle; at that point no reconnect timeout is pending and the
scope is detached, yet the closed handle's close event still fires
afterwards, schedules a reconnect for 3000 ms later, and when that
timer fires connect() constructs a second WebSocket: callbacks fire and
state mutates after teardown. -/
theorem c2_reconnect_after_teardown :
    validTrace [Ev.connectCall, Ev.transportOpen 0, Ev.cleanup, Ev.transportClose 0,
        Ev.tick 3000, Ev.fireReconnect 0] = true
    ∧ (run [Ev.connectCall, Ev.transportOpen 0, Ev.cleanup]).cleanedUp = true
    ∧ (run [Ev.connectCall, Ev.transportOpen 0, Ev.cleanup]).pendingRT = []
    ∧ (run [Ev.connectCall, Ev.transportOpen 0, Ev.cleanup]).handles.length = 1
    ∧ (run [Ev.connectCall, Ev.transportOpen 0, Ev.cleanup,
        Ev.transportClose 0]).pendingRT = [(0, 3000)]
    ∧ (run [Ev.connectCall, Ev.transportOpen 0, Ev.cleanup, Ev.transportClose 0,
        Ev.tick 3000, Ev.fireReconnect 0]).handles.length = 2 := by decide

/-- C3: the printer_status merge result is, per field, the shallow
union of old snapshot and payload with the payload winning, except that
a nullish unioned wifi_signal is restored from the old snapshot's
non-null value; includes the spec's two worked examples, instantiated
at the sticky signal-quality field wifi_signal. -/
theorem c3_merge_is_sticky_union :
    (∀ (old : Option Snapshot) (p : Snapshot) (f : String),
        jlookup (mergePrinterStatus old p) f = stickyUnionSpec old p f)
    ∧ mergePrinterStatus (some [(wifiField, JVal.int (-42)), ("state", JVal.str "IDLE")])
        [(wifiField, JVal.null)]
        = [(wifiField, JVal.int (-42)), ("state", JVal.str "IDLE")]
    ∧ mergePrinterStatus (some [(wifiField, JVal.int (-42)), ("state", JVal.str "IDLE")])
        [(wifiField, JVal.int (-50))]
        = [(wifiField, JVal.int (-50)), ("state", JVal.str "IDLE")] :=
  ⟨mergePS_lookup, by decide, by decide⟩

/-- C4: any nonempty batch of invalidation requests arriving inside one
100 ms coalescing window produces exactly one flush, 100 ms after the
last request (so after the window has elapsed), whose batch contains
every requested key exactly once and nothing else. -/
theorem c4_coalescer_one_flush (reqs : List (Nat × String))
    (hne : reqs ≠ []) (hw : withinWindowB reqs = true) :
    runCoalescer reqs ⟨[], none⟩ =
        [(lastReqTime reqs + 100, dedupKeys (reqs.map Prod.snd))]
    ∧ (dedupKeys (reqs.map Prod.snd)).Nodup
    ∧ (∀ k, k ∈ dedupKeys (reqs.map Prod.snd) ↔ k ∈ reqs.map Prod.snd)
    ∧ (∀ r ∈ reqs, r.1 < lastReqTime reqs + 100) := by
  cases reqs with
  | nil => exact absurd rfl hne
  | cons r rest =>
    obtain ⟨t0, k0⟩ := r
    have hw0 : withinFrom t0 rest = true := hw
    have hfirst : runCoalescer ((t0, k0) :: rest) ⟨[], none⟩ =
        runCoalescer rest ⟨[k0], some (t0 + 100)⟩ := by
      simp [runCoalescer, debouncedInvalidate]
    refine ⟨?_, ?_, ?_, ?_⟩
    · rw [hfirst, runCoalescer_within rest t0 [k0] (by simp) hw0]
      simp [lastReqTime, lastTimeFrom, dedupKeys, insFold_cons]
    · exact insFold_nodup _ [] List.nodup_nil
    · intro k
      rw [dedupKeys, insFold_mem]
      simp
    · intro s hs
      obtain ⟨hle, hall⟩ := withinFrom_le_last rest t0 hw0
      rcases List.mem_cons.mp hs with h1 | h1
      · rw [h1]
        show t0 < lastTimeFrom 0 ((t0, k0) :: rest) + 100
        show t0 < lastTimeFrom t0 rest + 100
        omega
      · have h2 := hall s h1
        show s.1 < lastTimeFrom t0 rest + 100
        omega

/-- C4, witness: three requests inside one window, two distinct keys,
flush exactly once at 100 ms past the last request. -/
theorem c4_coalescer_one_flush_witness :
    runCoalescer [(0, "archives"), (50, "archives"), (90, "archiveStats")] ⟨[], none⟩
      = [(190, ["archives", "archiveStats"])] := by
  have h := c4_coalescer_one_flush [(0, "archives"), (50, "archives"), (90, "archiveStats")]
    (by decide) (by decide)
  exact h.1.trans (by decide)

/-- C5, counterexample: after an error event on the open handle (alone,
its forced close event not yet delivered) the most recent lifecycle
event is an error, yet the connected flag is still true — ws.onerror
only calls ws.close() and leaves the flag to the later close event. -/
theorem c5_connected_after_error_cex :
    validTrace [Ev.connectCall, Ev.transportOpen 0, Ev.transportError 0] = true
    ∧ (run [Ev.connectCall, Ev.transportOpen 0, Ev.transportError 0]).isConnected = true
    ∧ claimC5rhs [Ev.connectCall, Ev.transportOpen 0, Ev.transportError 0] = false := by decide

/-- C5, amended: over every event sequence, the connected flag equals
true exactly when the most recent open-or-close transport event was an
open; an error event by itself never changes the flag (it flips when
the close event the error handler forces is processed). -/
theorem c5_connected_tracks_open_close (es : List Ev) :
    (run es).isConnected = lastFlip es := by
  exact foldl_isConnected es hookInit

/-- C6, counterexample: two live handles can coexist. The scope's
handle is closed during teardown while still connecting, a remount
connects again, the stale handle's close event then nulls the shared
ref (dropping the new open handle) and schedules a reconnect, and the
reconnect constructs a third WebSocket while the second is still open:
liveCount reaches 2. -/
theorem c6_two_live_handles_cex :
    validTrace [Ev.connectCall, Ev.cleanup, Ev.connectCall, Ev.transportOpen 1,
        Ev.transportClose 0, Ev.tick 3000, Ev.fireReconnect 0] = true
    ∧ liveCount (run [Ev.connectCall, Ev.cleanup, Ev.connectCall, Ev.transportOpen 1,
        Ev.transportClose 0, Ev.tick 3000, Ev.fireReconnect 0]) = 2 := by decide

/-- C6, amended: every transport close event schedules exactly one new
reconnect timeout, firing exactly 3000 ms after the close, with no
dependence on how many attempts came before (no backoff, no cap); the
claim's further conjunct that two live handles never coexist is false
(see the counterexample). -/
theorem c6_close_schedules_one_reconnect (es : List Ev) (h : Nat)
    (hv : validTrace (es ++ [Ev.transportClose h]) = true) :
    (run (es ++ [Ev.transportClose h])).pendingRT
        = (run es).pendingRT ++ [((run es).nextTimer, (run es).now + 3000)]
    ∧ (run (es ++ [Ev.transportClose h])).reconnectRef = some (run es).nextTimer := by
  have hr : run (es ++ [Ev.transportClose h]) = stepClose (run es) h := by
    simp [run, List.foldl_append, step]
  rw [hr]
  exact ⟨rfl, rfl⟩

/-- C6, witness for the amended theorem: a concrete open-then-close
trace schedules exactly one reconnect at +3000 ms. -/
theorem c6_close_schedules_one_reconnect_witness :
    (run ([Ev.connectCall, Ev.transportOpen 0] ++ [Ev.transportClose 0])).pendingRT
        = (run [Ev.connectCall, Ev.transportOpen 0]).pendingRT
          ++ [((run [Ev.connectCall, Ev.transportOpen 0]).nextTimer,
              (run [Ev.connectCall, Ev.transportOpen 0]).now + 3000)]
    ∧ (run ([Ev.connectCall, Ev.transportOpen 0] ++ [Ev.transportClose 0])).reconnectRef
        = some (run [Ev.connectCall, Ev.transportOpen 0]).nextTimer :=
  c6_close_schedules_one_reconnect [Ev.connectCall, Ev.transportOpen 0] 0 (by decide)

/-- C7: sendMessage transmits exactly when the referenced handle's
readyState is OPEN; in every other state the call changes nothing at
all — nothing is queued, no error is raised (the function is total),
and no later delivery can result since the state is left identical. -/
theorem c7_send_only_when_open (s : Hook) (m : Snapshot) :
    ((sendMessage s m).sent ≠ s.sent ↔ refIsOpen s = true)
    ∧ (refIsOpen s = false → sendMessage s m = s) := by
  unfold sendMessage refIsOpen
  cases s.wsRef with
  | none => simp
  | some h =>
    cases hget : s.handles[h]? with
    | none => simp [hget]
    | some hs =>
      by_cases hrs : hs.rs = RS.isOpen
      · have hne : s.sent ++ [(h, m)] ≠ s.sent := by
          intro he
          have hl := congrArg List.length he
          simp at hl
        simp [hget, hrs, hne]
      · simp [hget, hrs]

/-- C8: the keepalive interval of a handle is armed exactly while that
handle is Open (its open event has run, its close event has not), its
period is always 30000 ms, a tick of the interval sends exactly the
ping frame when the readyState is OPEN and nothing otherwise, and the
ping frame is the object whose JSON serialization is the wire frame
with type ping. -/
theorem c8_keepalive_iff_open :
    (∀ es, validTrace es = true → ∀ (i : Nat) (hs : HandleSt),
        (run es).handles[i]? = some hs →
          hs.ping = (if specOpen hs then some 30000 else none))
    ∧ (∀ (s : Hook) (h : Nat) (hs : HandleSt), s.handles[h]? = some hs →
        hs.rs = RS.isOpen →
          stepPing s h = { s with sent := s.sent ++ [(h, pingFrame)] })
    ∧ (∀ (s : Hook) (h : Nat) (hs : HandleSt), s.handles[h]? = some hs →
        ¬ hs.rs = RS.isOpen → stepPing s h = s)
    ∧ pingFrame = [("type", JVal.str "ping")] := by
  refine ⟨?_, ?_, ?_, rfl⟩
  · intro es hv i hs hget
    exact (run_hookInv es hv i hs hget).1
  · intro s h hs hget hrs
    simp [stepPing, hget, hrs]
  · intro s h hs hget hrs
    simp [stepPing, hget, hrs]

/-- C8, witness: in the trace that connects and opens, handle 0 is Open
and its keepalive interval is armed with period 30000 ms. -/
theorem c8_keepalive_iff_open_witness :
    (⟨RS.isOpen, true, false, some 30000⟩ : HandleSt).ping
      = (if specOpen ⟨RS.isOpen, true, false, some 30000⟩ then some 30000 else none) :=
  c8_keepalive_iff_open.1 [Ev.connectCall, Ev.transportOpen 0] (by decide) 0
    ⟨RS.isOpen, true, false, some 30000⟩ (by decide)

/-- C9: a frame that fails to decode is discarded with no cache effect
(the catch block ignores it), and a decoded frame whose type is outside
the recognized set falls through the dispatch with no cache effect and
no error. -/
theorem c9_unrecognized_frames_no_effect :
    (∀ (now : Nat) (c : CacheState), onmessage now none c = c)
    ∧ (∀ (now : Nat) (m : WSMessage) (c : CacheState),
        m.type ∉ (["printer_status", "print_complete", "archive_created",
          "archive_updated", "pong"] : List String) →
          handleMessage now m c = c) := by
  constructor
  · intro now c
    rfl
  · intro now m c hmem
    simp only [List.mem_cons, List.mem_singleton, not_or] at hmem
    obtain ⟨h1, h2, h3, h4, h5⟩ := hmem
    unfold handleMessage
    rw [if_neg h1, if_neg h2, if_neg h3, if_neg h4]

/-- C9, witness: a frame of unrecognized type bogus leaves a concrete
cache state unchanged. -/
theorem c9_unrecognized_frames_no_effect_witness :
    handleMessage 0 ⟨"bogus", none, none⟩ ⟨[], ⟨[], none⟩⟩ = ⟨[], ⟨[], none⟩⟩ :=
  c9_unrecognized_frames_no_effect.2 0 ⟨"bogus", none, none⟩ ⟨[], ⟨[], none⟩⟩ (by decide)

/-- C10: a printer_status frame whose printer_id is absent performs no
cache write at all: the guard skips the setQueryData call and the whole
cache state, every key included, is returned unchanged. -/
theorem c10_printer_status_without_id_no_write
    (now : Nat) (data : Option Snapshot) (c : CacheState) :
    handleMessage now ⟨"printer_status", none, data⟩ c = c := by
  unfold handleMessage
  simp
